import Mathlib

/-
Verification of the compression negotiation core of `tonic`
(src/tonic/src/codec/compression/compression.rs), shallowly embedded in Lean.

Bytes are modelled as `Nat`, byte buffers (`bytes::BytesMut`) as a list of
unread bytes together with a capacity, metadata/header maps as association
lists from (normalized) field names to values, where a value is `Option
String`: `some s` is a value readable as text `s`, `none` a value that is
not readable as text (`to_str()` fails on it).
-/

namespace Tonic

/-- Modelled from the spec: the `Compressor` trait of compressors.rs (a file
not under src/). Per §4.1 a Compressor Capability is a stable `name` and a
bulk compress operation that reads exactly the requested bytes and returns
the compressed representation, or fails with an error. We model the compress
operation (`transform`) on the extracted byte range; the decompress operation
is omitted because no claim here concerns the decode path. -/
structure Compressor where
  name : String
  transform : List Nat → Except String (List Nat)

/-- Modelled from the spec: the name of the identity algorithm
(`compressors::IDENTITY`, from compressors.rs, not under src/). -/
def IDENTITY : String := "identity"

/-- Modelled from the spec: the identity compressor (`compressors::identity`,
from compressors.rs, not under src/): "The identity implementation returns
its input unchanged for both operations and must never fail" (§4.1). -/
def identityCompressor : Compressor :=
  { name := IDENTITY, transform := fun bs => Except.ok bs }

/-- Modelled from the spec: the registry lookup `compressors::get`
(compressors.rs, not under src/): a case-sensitive exact-match lookup by
name in the process-wide registry, returning `none` if unknown (§4.2).
The registry contents depend on which algorithms were compiled in and
registered, so it is passed explicitly as a list of capabilities. -/
def compressors_get (reg : List Compressor) (name : String) : Option Compressor :=
  reg.find? (fun c => c.name == name)

/-- The Unicode White_Space code points: the characters removed by Rust's
`str::trim` (which trims per the Unicode White_Space property). -/
def rust_is_whitespace (c : Char) : Bool :=
  [0x09, 0x0A, 0x0B, 0x0C, 0x0D, 0x20, 0x85, 0xA0, 0x1680,
   0x2000, 0x2001, 0x2002, 0x2003, 0x2004, 0x2005, 0x2006, 0x2007,
   0x2008, 0x2009, 0x200A, 0x2028, 0x2029, 0x202F, 0x205F, 0x3000].contains c.toNat

/-- Trim characters satisfying `p` from both ends of a string. -/
def trimWith (p : Char → Bool) (s : String) : String :=
  String.mk (((s.data.dropWhile p).reverse.dropWhile p).reverse)

/-- Rust's `str::trim`: remove leading and trailing Unicode whitespace. -/
def rustTrim (s : String) : String := trimWith rust_is_whitespace s

/-- compression.rs line 11: `const BUFFER_SIZE: usize = 8 * 1024`. -/
def BUFFER_SIZE : Nat := 8 * 1024

/-- compression.rs line 12: the accept-encoding field name. -/
def ACCEPT_ENCODING_HEADER : String := "grpc-accept-encoding"

/-- Modelled from the spec: `ENCODING_HEADER` (defined in the parent codec
module, not under src/); §8's scenario shows `set_headers` writing
`grpc-encoding: gzip`, so the reserved outbound field name is
"grpc-encoding". -/
def ENCODING_HEADER : String := "grpc-encoding"

/-- Split a character list at every comma; the separator `","` of the Rust
`split` call is a single character, so splitting the character sequence is
Rust's `str::split(",")`: one (possibly empty) piece per comma-separated
segment, `[""]` for the empty input. -/
def splitComma : List Char → List (List Char)
  | [] => [[]]
  | c :: rest =>
      if c = ',' then [] :: splitComma rest
      else
        match splitComma rest with
        | [] => [[c]]
        | t :: ts => (c :: t) :: ts

/-- Rust's `value.split(",")` on strings. -/
def split_on_comma (value : String) : List String :=
  (splitComma value.data).map String.mk

/-- compression.rs lines 30-36: split the accept-encoding value on commas,
trim each token (Rust `str::trim`), and drop empty tokens. -/
def parse_accept_encoding_header (value : String) : List String :=
  ((split_on_comma value).map rustTrim).filter (fun v => !v.isEmpty)

/-- compression.rs lines 38-44: skip tokens equal to IDENTITY, look each
remaining token up in the registry, and take the first hit. -/
def first_supported_compressor (reg : List Compressor) (accepted : List String) :
    Option Compressor :=
  ((accepted.filter (fun name => !(name == IDENTITY))).filterMap
    (fun name => compressors_get reg name)).head?

/-- compression.rs lines 15-17: the negotiation outcome, an optional chosen
compressor (`None` = identity / no compression). -/
structure Compression where
  compressor : Option Compressor

/-- A `bytes::BytesMut` buffer: `data` is the unread bytes from the current
read position on, `cap` the capacity. `advance n` drops `n` bytes from the
front of `data`; appending extends `data` at the back. -/
structure BytesMut where
  data : List Nat
  cap : Nat

/-- `BytesMut::reserve`: ensure capacity for at least `additional` more
bytes beyond the current content (modelled as reserving exactly that). -/
def BytesMut.reserve (b : BytesMut) (additional : Nat) : BytesMut :=
  { b with cap := max b.cap (b.data.length + additional) }

/-- An `http::HeaderMap`: an association list from (normalized) header
names to values; `get` returns the first value stored for the name. A
value is `some s` when readable as text `s`, `none` when `to_str()` fails
on it. Note `http::HeaderValue::to_str` succeeds only when every byte of
the value is visible ASCII (0x20-0x7E) or horizontal tab, so in any
reachable map a readable value's text contains only such characters;
theorems that depend on this realizability bound state it as an explicit
hypothesis via `isHeaderChar` rather than narrowing the value type. -/
structure HeaderMap where
  entries : List (String × Option String)

/-- `HeaderMap::get` followed by the view of the value: `some v` when the
name is present (with `v` its readability-as-text view), `none` otherwise. -/
def HeaderMap.get (m : HeaderMap) (k : String) : Option (Option String) :=
  (m.entries.find? (fun p => p.1 == k)).map (fun p => p.2)

/-- `HeaderMap::insert`: drop every value stored under `k` and store `v`
as the single value for `k`. -/
def HeaderMap.insert (m : HeaderMap) (k : String) (v : Option String) : HeaderMap :=
  { entries := (m.entries.filter (fun p => !(p.1 == k))) ++ [(k, v)] }

/-- The characters `http::HeaderValue::to_str` accepts: visible ASCII
(0x20-0x7E) and horizontal tab. A header or metadata value readable as
text consists only of such characters. -/
def isHeaderChar (c : Char) : Bool :=
  (0x20 ≤ c.toNat && c.toNat ≤ 0x7E) || c.toNat == 0x09

/-- tonic's `MetadataMap`, a wrapper around an `http::HeaderMap`. -/
structure MetadataMap where
  headers : HeaderMap

/-- `MetadataMap::get` (plus `to_str`), delegating to the wrapped map. -/
def MetadataMap.get (m : MetadataMap) (k : String) : Option (Option String) :=
  m.headers.get k

/-- compression.rs lines 47-49: `Compression::disabled`. -/
def Compression.disabled : Compression := { compressor := none }

/-- compression.rs lines 53-62: `Compression::response_from_metadata`.
The registry is passed explicitly (in the source it is the global
`compressors` registry). -/
def Compression.response_from_metadata (reg : List Compressor)
    (request_metadata : MetadataMap) : Compression :=
  let accept_encoding_header :=
    ((MetadataMap.get request_metadata ACCEPT_ENCODING_HEADER).bind (fun v => v)).getD ""
  let parsed := parse_accept_encoding_header accept_encoding_header
  { compressor := first_supported_compressor reg parsed }

/-- compression.rs lines 65-74: `Compression::response_from_headers`. -/
def Compression.response_from_headers (reg : List Compressor)
    (request_headers : HeaderMap) : Compression :=
  let accept_encoding_header :=
    ((HeaderMap.get request_headers ACCEPT_ENCODING_HEADER).bind (fun v => v)).getD ""
  let parsed := parse_accept_encoding_header accept_encoding_header
  { compressor := first_supported_compressor reg parsed }

/-- compression.rs lines 77-79: `Compression::is_enabled`. -/
def Compression.is_enabled (c : Compression) : Bool :=
  c.compressor.isSome

/-- compression.rs line 88: the argument passed to `out_buffer.reserve`,
`((len / BUFFER_SIZE) + 1) * BUFFER_SIZE`. -/
def reserveArg (len : Nat) : Nat :=
  ((len / BUFFER_SIZE) + 1) * BUFFER_SIZE

/-- compression.rs lines 82-102: `Compression::compress`. Reserve space in
the output buffer, run the active compressor (identity when none is
selected) on the first `len` unread bytes, append its result to the output
buffer and advance the input buffer past `len` bytes; on a compressor
error, return early (before the advance) propagating the error. The
returned triple is (result, in_buffer, out_buffer) — the Rust function
mutates the two buffers through `&mut` and returns `Result<(), io::Error>`. -/
def Compression.compress (c : Compression) (in_buffer out_buffer : BytesMut)
    (len : Nat) : Except String Unit × BytesMut × BytesMut :=
  let out_reserved := out_buffer.reserve (reserveArg len)
  let compressor := c.compressor.getD identityCompressor
  match compressor.transform (in_buffer.data.take len) with
  | Except.error e => (Except.error e, in_buffer, out_reserved)
  | Except.ok result =>
      (Except.ok (), { in_buffer with data := in_buffer.data.drop len },
        { out_reserved with data := out_reserved.data ++ result })

/-- compression.rs lines 105-112: `Compression::set_headers`: when a
compressor is selected, insert its name under the encoding header; when
none is selected, do nothing. -/
def Compression.set_headers (c : Compression) (headers : HeaderMap) : HeaderMap :=
  match c.compressor with
  | none => headers
  | some compressor => HeaderMap.insert headers ENCODING_HEADER (some compressor.name)

/-! ### Claim-side definitions

Definitions below are written from the wording of the spec's claims, to be
compared with the definitions above (which embed the source). -/

/-- ASCII whitespace characters (tab, line feed, vertical tab, form feed,
carriage return, space). -/
def ascii_is_whitespace (c : Char) : Bool :=
  [0x09, 0x0A, 0x0B, 0x0C, 0x0D, 0x20].contains c.toNat

/-- Trim ASCII whitespace from both ends, as C1's wording states. -/
def asciiTrim (s : String) : String := trimWith ascii_is_whitespace s

/-- The token list C1 describes: comma-separated tokens in order, ASCII
whitespace trimmed from both ends, empty tokens discarded. On values
readable as header text this coincides with the code's parse (Rust's
`str::trim` removes Unicode whitespace, but the only Unicode whitespace
characters among visible-ASCII-plus-tab are space and tab themselves). -/
def claimTokensAscii (value : String) : List String :=
  ((split_on_comma value).map asciiTrim).filter (fun v => !v.isEmpty)

/-- The selection C1 describes, as a first-match scan: walk the tokens in
order, skip the literal token IDENTITY, and return the first token whose
registry lookup succeeds; `none` when no token matches. -/
def firstMatch (reg : List Compressor) : List String → Option Compressor
  | [] => none
  | t :: ts =>
      if t == IDENTITY then firstMatch reg ts
      else
        match compressors_get reg t with
        | some c => some c
        | none => firstMatch reg ts

/-- The reservation size C3 describes: the smallest multiple of
BUFFER_SIZE that is at least `len` (the "smallest multiple of 8192
covering len bytes"). -/
def smallestCoveringMultiple (len : Nat) : Nat :=
  ((len + BUFFER_SIZE - 1) / BUFFER_SIZE) * BUFFER_SIZE

/-! ### Concrete instances used by witnesses and counterexamples -/

/-- A gzip-like capability, standing for a registered non-identity
algorithm (its transform is irrelevant to negotiation). -/
def gzipCompressor : Compressor :=
  { name := "gzip", transform := fun bs => Except.ok (0 :: bs) }

/-- A compressor whose transform always fails, to exercise the error path
of `Compression.compress`. -/
def failingCompressor : Compressor :=
  { name := "fail", transform := fun _ => Except.error "boom" }

/-- A registry holding identity and gzip, §8's example registry. -/
def reg0 : List Compressor := [identityCompressor, gzipCompressor]

/-- An outcome with the gzip capability selected. -/
def gzipEnabled : Compression := { compressor := some gzipCompressor }

/-- A metadata map advertising "bogus, gzip, zstd" (§8's example). -/
def bogusMetadata : MetadataMap :=
  { headers := { entries := [(ACCEPT_ENCODING_HEADER, some "bogus, gzip, zstd")] } }

/-- A header map advertising "bogus, gzip, zstd". -/
def bogusHeaders : HeaderMap :=
  { entries := [(ACCEPT_ENCODING_HEADER, some "bogus, gzip, zstd")] }

/-- A metadata map with no accept-encoding entry. -/
def emptyMetadata : MetadataMap := { headers := { entries := [] } }

/-- A metadata map whose accept-encoding value is not readable as text. -/
def opaqueMetadata : MetadataMap :=
  { headers := { entries := [(ACCEPT_ENCODING_HEADER, none)] } }

/-- A header map whose accept-encoding value is not readable as text. -/
def opaqueHeaders : HeaderMap :=
  { entries := [(ACCEPT_ENCODING_HEADER, none)] }

/-- A header map that already carries an encoding entry, plus one
unrelated entry. -/
def presetHeaders : HeaderMap :=
  { entries := [(ENCODING_HEADER, some "br"), ("x-extra", some "y")] }

/-! ### Helper lemmas -/

/-- The source's filter-then-filterMap-then-head selection equals the
first-match scan the spec describes. -/
theorem first_supported_compressor_eq_firstMatch (reg : List Compressor)
    (l : List String) : first_supported_compressor reg l = firstMatch reg l := by
  induction l with
  | nil => rfl
  | cons t ts ih =>
      by_cases ht : (t == IDENTITY) = true
      · simpa [first_supported_compressor, firstMatch, List.filter_cons, ht]
          using ih
      · cases hg : compressors_get reg t with
        | none =>
            simpa [first_supported_compressor, firstMatch, List.filter_cons,
              ht, List.filterMap_cons, hg] using ih
        | some c =>
            simp [first_supported_compressor, firstMatch, List.filter_cons,
              ht, List.filterMap_cons, hg]

/-- Looking up `k` after an insert of `(k, v)` finds `v`. -/
theorem find?_insert_entries_self (l : List (String × Option String))
    (k : String) (v : Option String) :
    ((l.filter (fun p => !(p.1 == k))) ++ [(k, v)]).find?
      (fun p => p.1 == k) = some (k, v) := by
  induction l with
  | nil => simp [List.find?]
  | cons p ps ih =>
      by_cases hp : (p.1 == k) = true
      · simp [List.filter_cons, hp, ih]
      · simp [List.filter_cons, hp, List.find?, ih]

/-- Looking up a key other than `k` after an insert of `(k, v)` sees the
original entries. -/
theorem find?_insert_entries_other (l : List (String × Option String))
    (k k' : String) (v : Option String) (h : ¬ k' = k) :
    ((l.filter (fun p => !(p.1 == k))) ++ [(k, v)]).find?
      (fun p => p.1 == k') = l.find? (fun p => p.1 == k') := by
  induction l with
  | nil =>
      have hkk : (k == k') = false := by
        simp [Ne.symm h]
      simp [List.find?, hkk]
  | cons p ps ih =>
      by_cases hp : (p.1 == k) = true
      · have hp' : (p.1 == k') = false := by
          have : p.1 = k := by simpa using hp
          simp [this, Ne.symm h]
        simpa [List.filter_cons, hp, List.find?, hp'] using ih
      · by_cases hp' : (p.1 == k') = true
        · simp [List.filter_cons, hp, List.find?, hp']
        · simpa [List.filter_cons, hp, List.find?, hp'] using ih

/-- `HeaderMap.get` after `HeaderMap.insert` at the inserted key. -/
theorem get_insert_self (m : HeaderMap) (k : String) (v : Option String) :
    HeaderMap.get (HeaderMap.insert m k v) k = some v := by
  unfold HeaderMap.get HeaderMap.insert
  rw [find?_insert_entries_self]
  rfl

/-- `HeaderMap.get` after `HeaderMap.insert` at any other key. -/
theorem get_insert_other (m : HeaderMap) (k k' : String) (v : Option String)
    (h : ¬ k' = k) :
    HeaderMap.get (HeaderMap.insert m k v) k' = HeaderMap.get m k' := by
  unfold HeaderMap.get HeaderMap.insert
  rw [find?_insert_entries_other m.entries k k' v h]

/-- On a character readable as header text (visible ASCII or tab), Rust's
Unicode whitespace test agrees with the ASCII whitespace test: the only
Unicode White_Space code points at or below 0x7E other than 0x20 and 0x09
are 0x0A-0x0D, none of which is visible ASCII or tab either. -/
theorem rust_ascii_whitespace_agree (c : Char) (h : isHeaderChar c = true) :
    rust_is_whitespace c = ascii_is_whitespace c := by
  simp only [isHeaderChar, Bool.or_eq_true, Bool.and_eq_true, decide_eq_true_eq,
    beq_iff_eq] at h
  rw [Bool.eq_iff_iff]
  simp only [rust_is_whitespace, ascii_is_whitespace, List.contains, List.elem_iff,
    List.mem_cons, List.not_mem_nil, or_false]
  omega

/-- `dropWhile` only consults the predicate on the list's elements. -/
theorem dropWhile_congr_mem (p q : Char → Bool) (l : List Char)
    (h : ∀ c ∈ l, p c = q c) : l.dropWhile p = l.dropWhile q := by
  induction l with
  | nil => rfl
  | cons c cs ih =>
      have hc : p c = q c := h c (List.mem_cons_self c cs)
      rw [List.dropWhile_cons, List.dropWhile_cons, hc]
      by_cases hq : q c = true
      · simp only [hq, if_true]
        exact ih (fun x hx => h x (List.mem_cons_of_mem c hx))
      · simp [hq]

/-- On a string of header-text characters, Rust's trim and the ASCII trim
produce the same string. -/
theorem rustTrim_eq_asciiTrim_of_header_text (s : String)
    (h : ∀ c ∈ s.data, isHeaderChar c = true) : rustTrim s = asciiTrim s := by
  unfold rustTrim asciiTrim trimWith
  have h1 : s.data.dropWhile rust_is_whitespace =
      s.data.dropWhile ascii_is_whitespace :=
    dropWhile_congr_mem _ _ _ (fun c hc => rust_ascii_whitespace_agree c (h c hc))
  rw [h1]
  have h2 : ∀ c ∈ (s.data.dropWhile ascii_is_whitespace).reverse,
      isHeaderChar c = true :=
    fun c hc =>
      h c ((List.dropWhile_sublist ascii_is_whitespace).subset
        (List.mem_reverse.mp hc))
  rw [dropWhile_congr_mem _ _ _ (fun c hc => rust_ascii_whitespace_agree c (h2 c hc))]

/-- Every character of every piece of `splitComma l` is a character of `l`. -/
theorem mem_splitComma_subset (l : List Char) :
    ∀ t ∈ splitComma l, ∀ c ∈ t, c ∈ l := by
  induction l with
  | nil =>
      intro t ht c hc
      simp only [splitComma, List.mem_singleton] at ht
      subst ht
      simp at hc
  | cons a as ih =>
      intro t ht c hc
      by_cases ha : a = ','
      · rw [splitComma, if_pos ha] at ht
        rcases List.mem_cons.mp ht with h1 | h1
        · subst h1; simp at hc
        · exact List.mem_cons_of_mem a (ih t h1 c hc)
      · rw [splitComma, if_neg ha] at ht
        cases hsp : splitComma as with
        | nil =>
            rw [hsp] at ht
            simp only [List.mem_singleton] at ht
            subst ht
            simp only [List.mem_singleton] at hc
            rw [hc]
            exact List.mem_cons_self a as
        | cons t0 ts =>
            rw [hsp] at ht
            rcases List.mem_cons.mp ht with h1 | h1
            · subst h1
              rcases List.mem_cons.mp hc with h2 | h2
              · rw [h2]; exact List.mem_cons_self a as
              · have ht0 : t0 ∈ splitComma as := by
                  rw [hsp]; exact List.mem_cons_self t0 ts
                exact List.mem_cons_of_mem a (ih t0 ht0 c h2)
            · have htt : t ∈ splitComma as := by
                rw [hsp]; exact List.mem_cons_of_mem t0 h1
              exact List.mem_cons_of_mem a (ih t htt c hc)

/-- On a value readable as header text, the token list C1 describes
(ASCII-trimmed) is exactly the token list the code computes
(Unicode-trimmed): every token's characters come from the value, where
the two trims agree. -/
theorem claimTokensAscii_eq_parse (value : String)
    (h : ∀ c ∈ value.data, isHeaderChar c = true) :
    claimTokensAscii value = parse_accept_encoding_header value := by
  unfold claimTokensAscii parse_accept_encoding_header
  congr 1
  unfold split_on_comma
  rw [List.map_map, List.map_map]
  apply List.map_congr_left
  intro t ht
  show asciiTrim (String.mk t) = rustTrim (String.mk t)
  exact (rustTrim_eq_asciiTrim_of_header_text (String.mk t)
    (fun c hc => h c (mem_splitComma_subset value.data t ht c hc))).symm

/-! ### Claims -/

/-- C1: for every accept-encoding string value readable as header text
(`to_str` only succeeds on visible-ASCII-plus-tab bytes, so every value
either constructor can actually read satisfies this),
`response_from_metadata` and `response_from_headers` select the first
comma-separated token (taken in order, with ASCII whitespace trimmed from
both ends, empty tokens discarded, and the literal token "identity"
excluded) for which a registry lookup succeeds; `firstMatch` returns
`none` when no token matches, so the outcome then carries no compressor.
On such values the code's Unicode trim coincides with the ASCII trim the
claim describes. -/
theorem response_selects_first_supported (reg : List Compressor)
    (m : MetadataMap) (h : HeaderMap) (value : String)
    (hv : ∀ c ∈ value.data, isHeaderChar c = true)
    (hm : MetadataMap.get m ACCEPT_ENCODING_HEADER = some (some value))
    (hh : HeaderMap.get h ACCEPT_ENCODING_HEADER = some (some value)) :
    (Compression.response_from_metadata reg m).compressor =
      firstMatch reg (claimTokensAscii value) ∧
    (Compression.response_from_headers reg h).compressor =
      firstMatch reg (claimTokensAscii value) := by
  have he : claimTokensAscii value = parse_accept_encoding_header value :=
    claimTokensAscii_eq_parse value hv
  constructor
  · simp only [Compression.response_from_metadata, hm, Option.some_bind,
      Option.getD_some, he, first_supported_compressor_eq_firstMatch]
  · simp only [Compression.response_from_headers, hh, Option.some_bind,
      Option.getD_some, he, first_supported_compressor_eq_firstMatch]

/-- Witness for C1 at §8's example "bogus, gzip, zstd" with registry
(identity, gzip). -/
theorem response_selects_first_supported_witness :
    (Compression.response_from_metadata reg0 bogusMetadata).compressor =
      firstMatch reg0 (claimTokensAscii "bogus, gzip, zstd") ∧
    (Compression.response_from_headers reg0 bogusHeaders).compressor =
      firstMatch reg0 (claimTokensAscii "bogus, gzip, zstd") :=
  response_selects_first_supported reg0 bogusMetadata bogusHeaders
    "bogus, gzip, zstd" (by decide) (by decide) (by decide)

/-- C2: when `compress(in_buffer, out_buffer, len)` succeeds (on an input
buffer holding at least `len` unread bytes — with fewer, the Rust
`advance` would panic rather than return at all), the returned input
buffer is the original minus exactly its first `len` bytes (the bytes
beyond `len` remain available), and the returned output buffer is the
original extended by exactly the transform's result. -/
theorem compress_success_buffer_effects (c : Compression)
    (in_buffer out_buffer : BytesMut) (len : Nat)
    (hlen : len ≤ in_buffer.data.length)
    (hok : (Compression.compress c in_buffer out_buffer len).1 = Except.ok ()) :
    (Compression.compress c in_buffer out_buffer len).2.1.data =
      in_buffer.data.drop len ∧
    in_buffer.data.length =
      (Compression.compress c in_buffer out_buffer len).2.1.data.length + len ∧
    ∃ result,
      (c.compressor.getD identityCompressor).transform (in_buffer.data.take len) =
        Except.ok result ∧
      (Compression.compress c in_buffer out_buffer len).2.2.data =
        out_buffer.data ++ result ∧
      (Compression.compress c in_buffer out_buffer len).2.2.data.length =
        out_buffer.data.length + result.length := by
  cases htr : (c.compressor.getD identityCompressor).transform
      (in_buffer.data.take len) with
  | error e =>
      exfalso
      rw [Compression.compress] at hok
      rw [htr] at hok
      simp at hok
  | ok result =>
      refine ⟨?_, ?_, result, rfl, ?_, ?_⟩
      · simp [Compression.compress, htr, BytesMut.reserve]
      · simp [Compression.compress, htr, BytesMut.reserve]
        omega
      · simp [Compression.compress, htr, BytesMut.reserve]
      · simp [Compression.compress, htr, BytesMut.reserve]

/-- Witness for C2 with the identity transform on a three-byte buffer. -/
theorem compress_success_buffer_effects_witness :
    (Compression.compress Compression.disabled ⟨[1, 2, 3], 0⟩ ⟨[9], 0⟩ 2).2.1.data =
      ([1, 2, 3] : List Nat).drop 2 ∧
    ([1, 2, 3] : List Nat).length =
      (Compression.compress Compression.disabled ⟨[1, 2, 3], 0⟩ ⟨[9], 0⟩ 2).2.1.data.length + 2 ∧
    ∃ result,
      (Compression.disabled.compressor.getD identityCompressor).transform
        (([1, 2, 3] : List Nat).take 2) = Except.ok result ∧
      (Compression.compress Compression.disabled ⟨[1, 2, 3], 0⟩ ⟨[9], 0⟩ 2).2.2.data =
        [9] ++ result ∧
      (Compression.compress Compression.disabled ⟨[1, 2, 3], 0⟩ ⟨[9], 0⟩ 2).2.2.data.length =
        ([9] : List Nat).length + result.length :=
  compress_success_buffer_effects Compression.disabled ⟨[1, 2, 3], 0⟩ ⟨[9], 0⟩ 2
    (by decide) (by rfl)

/-- C3 is false as stated: at `len = 8192` the code's reservation argument
(line 88) is 16384, while the smallest multiple of 8192 covering 8192
bytes is 8192 itself. -/
theorem reserve_rounding_counterexample :
    reserveArg 8192 = 16384 ∧
    smallestCoveringMultiple 8192 = 8192 ∧
    ¬ reserveArg 8192 = smallestCoveringMultiple 8192 ∧
    ((Compression.compress Compression.disabled
        ⟨List.replicate 8192 0, 8192⟩ ⟨[], 0⟩ 8192).2.2).cap = 16384 := by
  refine ⟨by decide, by decide, by decide, ?_⟩
  rfl

/-- C3 (amended: the reserved amount is `(len / 8192 + 1) * 8192`, the
smallest multiple of the 8 KiB chunk size strictly greater than `len` —
one full chunk more than C3's "smallest multiple covering len" whenever
`len` is itself a multiple of 8192): `compress` reserves exactly that
amount of additional capacity in the output buffer. -/
theorem reserve_rounding (len : Nat) :
    reserveArg len % BUFFER_SIZE = 0 ∧
    len < reserveArg len ∧
    (∀ m, m % BUFFER_SIZE = 0 → len < m → reserveArg len ≤ m) ∧
    (∀ (c : Compression) (in_buffer out_buffer : BytesMut),
      ((Compression.compress c in_buffer out_buffer len).2.2).cap =
        max out_buffer.cap (out_buffer.data.length + reserveArg len)) := by
  refine ⟨?_, ?_, ?_, ?_⟩
  · simp [reserveArg, BUFFER_SIZE]
  · simp only [reserveArg, BUFFER_SIZE]
    omega
  · intro m hm hlt
    simp only [reserveArg, BUFFER_SIZE] at *
    omega
  · intro c in_buffer out_buffer
    cases htr : (c.compressor.getD identityCompressor).transform
        (in_buffer.data.take len) with
    | error e => simp [Compression.compress, htr, BytesMut.reserve]
    | ok result => simp [Compression.compress, htr, BytesMut.reserve]

/-- Witness for the amended C3: at `len = 0` the reservation is one full
8 KiB chunk, and no smaller positive multiple of 8192 exceeds 0. -/
theorem reserve_rounding_witness :
    reserveArg 0 ≤ 8192 ∧
    ((Compression.compress Compression.disabled ⟨[], 0⟩ ⟨[], 0⟩ 0).2.2).cap =
      max 0 (0 + reserveArg 0) :=
  ⟨(reserve_rounding 0).2.2.1 8192 (by decide) (by decide),
    (reserve_rounding 0).2.2.2 Compression.disabled ⟨[], 0⟩ ⟨[], 0⟩⟩

/-- C4 is false as stated: with no compressor selected, `set_headers`
leaves the header map entirely unchanged — so when the map already carried
an encoding entry (here "br"), the encoding field is still present
afterwards, not absent. -/
theorem set_headers_absent_counterexample :
    Compression.set_headers Compression.disabled presetHeaders = presetHeaders ∧
    ¬ HeaderMap.get (Compression.set_headers Compression.disabled presetHeaders)
        ENCODING_HEADER = none := by
  exact ⟨rfl, by decide⟩

/-- C4 (amended: when no compressor is selected the header map is left
entirely unchanged — in particular the encoding field stays absent
whenever it was absent beforehand, but a pre-existing value is not
cleared): `set_headers` writes the chosen compressor's name into the
encoding field iff a compressor was selected. -/
theorem set_headers_iff_selected (c : Compression) (headers : HeaderMap) :
    (c.compressor = none → Compression.set_headers c headers = headers) ∧
    (∀ comp, c.compressor = some comp →
      HeaderMap.get (Compression.set_headers c headers) ENCODING_HEADER =
        some (some comp.name)) := by
  constructor
  · intro hc
    simp [Compression.set_headers, hc]
  · intro comp hc
    simp only [Compression.set_headers, hc]
    exact get_insert_self headers ENCODING_HEADER (some comp.name)

/-- Witness for the amended C4: disabled compression leaves a map
unchanged; gzip-enabled compression writes "gzip". -/
theorem set_headers_iff_selected_witness :
    Compression.set_headers Compression.disabled presetHeaders = presetHeaders ∧
    HeaderMap.get (Compression.set_headers gzipEnabled presetHeaders)
      ENCODING_HEADER = some (some gzipCompressor.name) :=
  ⟨(set_headers_iff_selected Compression.disabled presetHeaders).1 rfl,
    (set_headers_iff_selected gzipEnabled presetHeaders).2 gzipCompressor rfl⟩

/-- C5: an empty accept-encoding value, the value "identity", and a
missing accept-encoding field each produce an outcome with
`is_enabled() = false`, whatever the registry. -/
theorem response_trivial_values_disabled (reg : List Compressor)
    (m : MetadataMap)
    (h : MetadataMap.get m ACCEPT_ENCODING_HEADER = none ∨
         MetadataMap.get m ACCEPT_ENCODING_HEADER = some (some "") ∨
         MetadataMap.get m ACCEPT_ENCODING_HEADER = some (some "identity")) :
    Compression.is_enabled (Compression.response_from_metadata reg m) = false := by
  rcases h with h | h | h <;>
    · simp only [Compression.response_from_metadata, h]
      rfl

/-- Witness for C5 at a metadata map with no accept-encoding entry and
the §8 registry. -/
theorem response_trivial_values_disabled_witness :
    Compression.is_enabled (Compression.response_from_metadata reg0 emptyMetadata) =
      false :=
  response_trivial_values_disabled reg0 emptyMetadata (Or.inl (by decide))

/-- C6: when the accept-encoding field is absent or its value is not
readable as text, both constructors return (totally, never failing — they
are plain functions into `Compression`) the disabled outcome, exactly what
the empty negotiation value produces: no compressor selected. -/
theorem response_unreadable_degrades (reg : List Compressor)
    (m : MetadataMap) (h : HeaderMap)
    (hm : MetadataMap.get m ACCEPT_ENCODING_HEADER = none ∨
          MetadataMap.get m ACCEPT_ENCODING_HEADER = some none)
    (hh : HeaderMap.get h ACCEPT_ENCODING_HEADER = none ∨
          HeaderMap.get h ACCEPT_ENCODING_HEADER = some none) :
    Compression.response_from_metadata reg m = Compression.disabled ∧
    Compression.response_from_headers reg h = Compression.disabled := by
  constructor
  · rcases hm with hm | hm <;>
      · simp only [Compression.response_from_metadata, hm]
        rfl
  · rcases hh with hh | hh <;>
      · simp only [Compression.response_from_headers, hh]
        rfl

/-- Witness for C6 at maps whose accept-encoding value is unreadable. -/
theorem response_unreadable_degrades_witness :
    Compression.response_from_metadata reg0 opaqueMetadata = Compression.disabled ∧
    Compression.response_from_headers reg0 opaqueHeaders = Compression.disabled :=
  response_unreadable_degrades reg0 opaqueMetadata opaqueHeaders
    (Or.inr (by decide)) (Or.inr (by decide))

/-- C7: with no compressor selected, `compress` falls back to the identity
compressor, succeeds, and appends the requested input bytes unchanged to
the output buffer. -/
theorem compress_disabled_appends_identity (c : Compression)
    (hc : c.compressor = none) (in_buffer out_buffer : BytesMut) (len : Nat) :
    c.compressor.getD identityCompressor = identityCompressor ∧
    (Compression.compress c in_buffer out_buffer len).1 = Except.ok () ∧
    (Compression.compress c in_buffer out_buffer len).2.2.data =
      out_buffer.data ++ in_buffer.data.take len := by
  refine ⟨by simp [hc], ?_, ?_⟩ <;>
    simp [Compression.compress, hc, identityCompressor, BytesMut.reserve]

/-- Witness for C7 on a concrete two-byte request. -/
theorem compress_disabled_appends_identity_witness :
    Compression.disabled.compressor.getD identityCompressor = identityCompressor ∧
    (Compression.compress Compression.disabled ⟨[4, 5, 6], 0⟩ ⟨[7], 0⟩ 2).1 =
      Except.ok () ∧
    (Compression.compress Compression.disabled ⟨[4, 5, 6], 0⟩ ⟨[7], 0⟩ 2).2.2.data =
      [7] ++ ([4, 5, 6] : List Nat).take 2 :=
  compress_disabled_appends_identity Compression.disabled rfl ⟨[4, 5, 6], 0⟩ ⟨[7], 0⟩ 2

/-- C8: when the active compressor's transform fails, `compress` returns
that very error, the input buffer untouched (its read position is advanced
only on the success path), and the output buffer with only the
reservation applied. -/
theorem compress_error_preserves_input (c : Compression)
    (in_buffer out_buffer : BytesMut) (len : Nat) (e : String)
    (herr : (c.compressor.getD identityCompressor).transform
      (in_buffer.data.take len) = Except.error e) :
    Compression.compress c in_buffer out_buffer len =
      (Except.error e, in_buffer, out_buffer.reserve (reserveArg len)) := by
  simp [Compression.compress, herr]

/-- Witness for C8 with a compressor that always fails. -/
theorem compress_error_preserves_input_witness :
    Compression.compress { compressor := some failingCompressor }
        ⟨[7], 3⟩ ⟨[], 0⟩ 1 =
      (Except.error "boom", ⟨[7], 3⟩, BytesMut.reserve ⟨[], 0⟩ (reserveArg 1)) :=
  compress_error_preserves_input { compressor := some failingCompressor }
    ⟨[7], 3⟩ ⟨[], 0⟩ 1 "boom" rfl

/-- C9: a metadata map and a header map carrying the same accept-encoding
value yield outcomes with the same selected compressor. -/
theorem response_metadata_headers_agree (reg : List Compressor)
    (m : MetadataMap) (h : HeaderMap) (v : Option String)
    (hm : MetadataMap.get m ACCEPT_ENCODING_HEADER = some v)
    (hh : HeaderMap.get h ACCEPT_ENCODING_HEADER = some v) :
    (Compression.response_from_metadata reg m).compressor =
      (Compression.response_from_headers reg h).compressor := by
  simp only [Compression.response_from_metadata, Compression.response_from_headers,
    hm, hh]

/-- Witness for C9 at maps both carrying "bogus, gzip, zstd". -/
theorem response_metadata_headers_agree_witness :
    (Compression.response_from_metadata reg0 bogusMetadata).compressor =
      (Compression.response_from_headers reg0 bogusHeaders).compressor :=
  response_metadata_headers_agree reg0 bogusMetadata bogusHeaders
    (some "bogus, gzip, zstd") (by decide) (by decide)

/-- C10: with a compressor selected, `set_headers` on a map that already
carries an encoding value replaces that value with the chosen compressor's
name and leaves every other entry's lookup unchanged. -/
theorem set_headers_replaces_existing (c : Compression) (comp : Compressor)
    (headers : HeaderMap) (old : Option String)
    (hc : c.compressor = some comp)
    (_hold : HeaderMap.get headers ENCODING_HEADER = some old) :
    HeaderMap.get (Compression.set_headers c headers) ENCODING_HEADER =
      some (some comp.name) ∧
    ∀ k, ¬ k = ENCODING_HEADER →
      HeaderMap.get (Compression.set_headers c headers) k =
        HeaderMap.get headers k := by
  constructor
  · simp only [Compression.set_headers, hc]
    exact get_insert_self headers ENCODING_HEADER (some comp.name)
  · intro k hk
    simp only [Compression.set_headers, hc]
    exact get_insert_other headers ENCODING_HEADER k (some comp.name) hk

/-- Witness for C10 on a map holding encoding "br" and an unrelated
entry. -/
theorem set_headers_replaces_existing_witness :
    HeaderMap.get (Compression.set_headers gzipEnabled presetHeaders)
      ENCODING_HEADER = some (some gzipCompressor.name) ∧
    HeaderMap.get (Compression.set_headers gzipEnabled presetHeaders) "x-extra" =
      HeaderMap.get presetHeaders "x-extra" :=
  ⟨(set_headers_replaces_existing gzipEnabled gzipCompressor presetHeaders
      (some "br") rfl (by decide)).1,
    (set_headers_replaces_existing gzipEnabled gzipCompressor presetHeaders
      (some "br") rfl (by decide)).2 "x-extra" (by decide)⟩

end Tonic
